import Mathlib

/-!
Shallow embedding of `parse_chain.py` (reference-chain parser for memory-leak
analysis).  Strings are Lean `String`s; the character-level scanning done by
the Python regular expressions is spelled out as total functions on
`List Char`.  The regex character classes `[A-Za-z0-9_]`, `[0-9A-Fa-f]` and
`\s` are modelled over their ASCII ranges (the inputs of interest are ASCII).
Python's `$` anchor also matches just before one trailing newline, which the
model reproduces.

Python `ReferenceNode` objects have no `__eq__`, so `==` on them (used by
`list.index` in `get_parent` / `get_children` and by `leak_node ==
self.nodes[-1]` in `analyze`) is object identity.  Every node appended by
`parse` is a fresh object; we model identity with the extra field `pyid`,
which `parse` assigns consecutively, so identity comparison is `pyid`
comparison.
-/

/-- Character class `[A-Za-z0-9_]` of the Python regexes. -/
def isIdentChar (c : Char) : Bool :=
  c.isAlphanum || c = '_'

/-- Character class `[0-9A-Fa-f]` (hexadecimal digits). -/
def isHexChar (c : Char) : Bool :=
  c.isDigit || ('A' ≤ c && c ≤ 'F') || ('a' ≤ c && c ≤ 'f')

/-- ASCII fragment of the regex class `\s`. -/
def isWsChar (c : Char) : Bool :=
  c = ' ' || c = '\t' || c = '\n' || c = '\r' || c = '\x0B' || c = '\x0C'

/-- `re.match(r'^([A-Za-z0-9_]+):([0-9A-Fa-f]+)\[(true|false)\]$', part)`.
The greedy `+` groups are deterministic here because `:` and `[` lie outside
both character classes, so the match (if any) takes the maximal identifier
run, a `:`, the maximal hex run, and a literal `[true]` / `[false]` closing
the segment (optionally followed by one newline, which `$` tolerates).
Returns `(class_name, address, released)` on success. -/
def matchNodeSegment (part : List Char) : Option (String × String × Bool) :=
  let spanCls := part.span isIdentChar
  match spanCls.2 with
  | ':' :: rest2 =>
    let spanHex := rest2.span isHexChar
    match spanHex.2 with
    | '[' :: rest4 =>
      if spanCls.1 = [] ∨ spanHex.1 = [] then none
      else if rest4 = "true]".toList ∨ rest4 = ("true]".toList ++ ['\n']) then
        some (String.mk spanCls.1, String.mk spanHex.1, true)
      else if rest4 = "false]".toList ∨ rest4 = ("false]".toList ++ ['\n']) then
        some (String.mk spanCls.1, String.mk spanHex.1, false)
      else none
    | _ => none
  | _ => none

/-- `part.startswith('__cppinst')`. -/
def startsWithCppinst (part : List Char) : Bool :=
  List.isPrefixOf "__cppinst".toList part

/-- Attempt to match the suffix regex `\.__cppinst\s*=\s*([A-Za-z0-9_]+)$`
at the head of `l` (i.e. with the match starting exactly here).  The greedy
`\s*` and `([A-Za-z0-9_]+)` are deterministic because whitespace, `=` and
identifier characters are pairwise disjoint classes; `$` accepts the end of
the string or a single final newline.  Returns the captured identifier. -/
def matchCppAt (l : List Char) : Option String :=
  match l with
  | '.' :: rest =>
    if startsWithCppinst rest then
      let r1 := rest.drop 9
      let r2 := r1.dropWhile isWsChar
      match r2 with
      | '=' :: r3 =>
        let spanId := (r3.dropWhile isWsChar).span isIdentChar
        if spanId.1 ≠ [] ∧ (spanId.2 = [] ∨ spanId.2 = ['\n']) then
          some (String.mk spanId.1)
        else none
      | _ => none
    else none
  | _ => none

/-- `re.search` for the suffix pattern: scan start positions left to right,
returning the first position (and captured identifier) where `matchCppAt`
succeeds — `re.search` returns the leftmost match. -/
def findCppinst : List Char → Option (Nat × String)
  | [] => none
  | c :: cs =>
    match matchCppAt (c :: cs) with
    | some idf => some (0, idf)
    | none =>
      match findCppinst cs with
      | some (i, idf) => some (i + 1, idf)
      | none => none

/-- Python `str.split(sep)` for a single-character separator:
`"".split('.') == ['']`, adjacent separators yield empty pieces. -/
def splitOnChar (sep : Char) : List Char → List (List Char)
  | [] => [[]]
  | c :: cs =>
    if c = sep then [] :: splitOnChar sep cs
    else
      match splitOnChar sep cs with
      | p :: ps => (c :: p) :: ps
      | [] => [[c]]

/-- One node of the chain.  `field` is the field name on the previous node
holding the reference; `pyid` models Python object identity (see above). -/
structure ReferenceNode where
  class_name : String
  address : String
  released : Bool
  field : Option String
  pyid : Nat
deriving DecidableEq, Repr

/-- A parsed chain: the raw string, the ordered node list, and the optional
`__cppinst` trailing annotation (`cpp_instance`). -/
structure ReferenceChain where
  raw_chain : String
  nodes : List ReferenceNode
  cpp_instance : Option String
deriving DecidableEq, Repr

/-- The parsing loop of `ReferenceChain.parse`: walk the `.`-separated parts
keeping the pending field name (`current_field`); a part matching the node
pattern becomes a node carrying the pending field (then the pending field is
reset); a non-empty non-node part not starting with `__cppinst` overwrites
the pending field; everything else is dropped.  `nextId` numbers the freshly
created objects (their `pyid`). -/
def parseLoop : List (List Char) → Option String → Nat → List ReferenceNode
  | [], _, _ => []
  | part :: rest, curField, nextId =>
    match matchNodeSegment part with
    | some (cls, addr, rel) =>
      { class_name := cls, address := addr, released := rel,
        field := curField, pyid := nextId } :: parseLoop rest none (nextId + 1)
    | none =>
      if part ≠ [] ∧ startsWithCppinst part = false then
        parseLoop rest (some (String.mk part)) nextId
      else
        parseLoop rest curField nextId

/-- Extraction of the `.__cppinst = Name` suffix before splitting:
`chain_to_parse = raw_chain[:cpp_match.start()]` and
`cpp_instance = cpp_match.group(1)` when the search succeeds. -/
def stripCppinst (s : String) : String × Option String :=
  match findCppinst s.toList with
  | some (i, idf) => (String.mk (s.toList.take i), some idf)
  | none => (s, none)

/-- The `.`-separated parts that the parsing loop consumes. -/
def chainParts (s : String) : List (List Char) :=
  splitOnChar '.' (stripCppinst s).1.toList

/-- `ReferenceChain.__init__` / `ReferenceChain.parse`: strip the trailing
annotation, split on `.`, run the loop with no pending field. -/
def ReferenceChain.parse (s : String) : ReferenceChain :=
  { raw_chain := s
    nodes := parseLoop (chainParts s) none 0
    cpp_instance := (stripCppinst s).2 }

/-- `get_leak_nodes`: the nodes that have not called Release. -/
def ReferenceChain.get_leak_nodes (c : ReferenceChain) : List ReferenceNode :=
  c.nodes.filter (fun node => !node.released)

/-- `get_first_leak`: `leak_nodes[0] if leak_nodes else None`. -/
def ReferenceChain.get_first_leak (c : ReferenceChain) : Option ReferenceNode :=
  (c.get_leak_nodes).head?

/-- Python `list.index` on the node list.  `ReferenceNode` has no `__eq__`,
so the comparison is object identity, i.e. `pyid` equality in the model;
the first (and, for parsed chains, only) position with that identity is
returned, `none` modelling the `ValueError`. -/
def listIndexById : List ReferenceNode → Nat → Option Nat
  | [], _ => none
  | m :: rest, tid =>
    if m.pyid = tid then some 0
    else (listIndexById rest tid).map (· + 1)

/-- `get_parent`: `self.nodes[idx - 1] if idx > 0 else None`, with the
`ValueError` branch returning `None`. -/
def ReferenceChain.get_parent (c : ReferenceChain) (node : ReferenceNode) :
    Option ReferenceNode :=
  match listIndexById c.nodes node.pyid with
  | some idx => if 0 < idx then c.nodes[idx - 1]? else none
  | none => none

/-- `get_children`: `self.nodes[idx + 1:]`, with the `ValueError` branch
returning `[]`. -/
def ReferenceChain.get_children (c : ReferenceChain) (node : ReferenceNode) :
    List ReferenceNode :=
  match listIndexById c.nodes node.pyid with
  | some idx => c.nodes.drop (idx + 1)
  | none => []

/-- One entry of the `leaks` array built by `analyze`. -/
structure LeakInfo where
  node : ReferenceNode
  parent : Option ReferenceNode
  parent_released : Option Bool
  has_children : Bool
  children_count : Nat
  priority : String
  cpp_blueprint : Option String
deriving DecidableEq, Repr

/-- The body of the per-leak loop of `analyze`.  `priority` is
`"high" if parent and parent.released else "medium"`; `cpp_blueprint` is the
chain's `cpp_instance` exactly when `leak_node == self.nodes[-1]` (identity
comparison; the `nodes[-1]` access is only reached with a non-empty node
list, so the `none` fallback of `getLast?` is unreachable in `analyze`). -/
def mkLeakInfo (c : ReferenceChain) (leak_node : ReferenceNode) : LeakInfo :=
  let parent := c.get_parent leak_node
  let children := c.get_children leak_node
  { node := leak_node
    parent := parent
    parent_released := parent.map (fun p => p.released)
    has_children := decide (0 < children.length)
    children_count := children.length
    priority :=
      match parent with
      | some p => if p.released then "high" else "medium"
      | none => "medium"
    cpp_blueprint :=
      match c.nodes.getLast? with
      | some lastNode => if leak_node.pyid = lastNode.pyid then c.cpp_instance else none
      | none => none }

/-- The analysis record of `analyze` (the `visualization` string field of the
Python dict is omitted; no property below concerns it). -/
structure Analysis where
  raw_chain : String
  total_nodes : Nat
  leaked_nodes : Nat
  cpp_instance : Option String
  nodes : List ReferenceNode
  leaks : List LeakInfo
deriving DecidableEq, Repr

/-- `analyze`: counts, the node list, and one `LeakInfo` per leaked node in
order. -/
def ReferenceChain.analyze (c : ReferenceChain) : Analysis :=
  let leak_nodes := c.get_leak_nodes
  { raw_chain := c.raw_chain
    total_nodes := c.nodes.length
    leaked_nodes := leak_nodes.length
    cpp_instance := c.cpp_instance
    nodes := c.nodes
    leaks := leak_nodes.map (mkLeakInfo c) }

/-- Result of `parse_multiple_chains`.  Python materializes the two sets as
lists in unspecified iteration order; the model keeps them as finite sets. -/
structure MultiResult where
  total_chains : Nat
  unique_leaked_classes : Finset String
  unique_cpp_blueprints : Finset String
  chains : List Analysis

/-- `parse_multiple_chains`: parse every string, collect the class names of
all leak nodes and all trailing annotations into sets, and keep the
per-chain analyses in order. -/
def parse_multiple_chains (chain_strings : List String) : MultiResult :=
  let chains := chain_strings.map ReferenceChain.parse
  { total_chains := chains.length
    unique_leaked_classes :=
      chains.foldl
        (fun acc ch => ch.get_leak_nodes.foldl (fun a nd => insert nd.class_name a) acc) ∅
    unique_cpp_blueprints :=
      chains.foldl
        (fun acc ch =>
          match ch.cpp_instance with
          | some cpp => insert cpp acc
          | none => acc) ∅
    chains := chains.map ReferenceChain.analyze }

/-- The lines printed by the usage branch of `main`. -/
def usageLines : List String :=
  ["Usage: python parse_chain.py <reference_chain> [<chain2>] [<chain3>] ...",
   "\nExample:",
   "  python parse_chain.py \"IVShopItemTemplate:000000029E8DD9C0[true]._nameComp.IVTextQualityComponent:000000029E8D6300[false].__cppinst = WBP_MyWidget_C\""]

/-- What `main` writes to standard output: the usage text, or the JSON
serialization of a single-chain analysis, or of the aggregated result. -/
inductive MainOutput where
  | usage (lines : List String)
  | single (a : Analysis)
  | multi (m : MultiResult)

/-- `main`: `argv` includes the program name.  With fewer than two entries,
print usage and `sys.exit(1)`; with exactly one chain string, emit the
single-chain analysis; otherwise the aggregated analysis.  The second
component is the process exit status (0 on normal completion). -/
def mainEntry (argv : List String) : MainOutput × Nat :=
  if argv.length < 2 then (MainOutput.usage usageLines, 1)
  else
    let chain_strings := argv.drop 1
    if chain_strings.length = 1 then
      (MainOutput.single (ReferenceChain.analyze (ReferenceChain.parse (chain_strings.headD ""))), 0)
    else
      (MainOutput.multi (parse_multiple_chains chain_strings), 0)

/-- The input of the trailing-annotation scenario. -/
def chainC5 : String := "A:01[true]._f.B:02[false].__cppinst = Widget_C"

/-- The `pyid` assigned by the parsing loop is the start counter plus the
position of the node in the produced list. -/
theorem parseLoop_pyid (parts : List (List Char)) :
    ∀ (f : Option String) (k j : Nat) (n : ReferenceNode),
      (parseLoop parts f k)[j]? = some n → n.pyid = k + j := by
  induction parts with
  | nil => intro f k j n h; simp [parseLoop] at h
  | cons part rest ih =>
    intro f k j n h
    simp only [parseLoop] at h
    cases hm : matchNodeSegment part with
    | some v =>
      obtain ⟨cls, addr, rel⟩ := v
      rw [hm] at h
      cases j with
      | zero =>
        rw [List.getElem?_cons_zero] at h
        injection h with h
        subst h
        simp
      | succ j' =>
        rw [List.getElem?_cons_succ] at h
        have := ih none (k + 1) j' n h
        omega
    | none =>
      simp only [hm] at h
      split at h
      · exact ih _ k j n h
      · exact ih f k j n h

/-- In a parsed chain, the node at position `j` has `pyid = j`. -/
theorem parse_pyid (s : String) (j : Nat) (n : ReferenceNode)
    (h : (ReferenceChain.parse s).nodes[j]? = some n) : n.pyid = j := by
  have := parseLoop_pyid (chainParts s) none 0 j n h
  omega

/-- If every position of `l` carries `pyid = k + position`, then looking up
the `pyid` of the element at position `i` returns `i`. -/
theorem listIndexById_pos (l : List ReferenceNode) :
    ∀ (k i : Nat) (n : ReferenceNode),
      (∀ j m, l[j]? = some m → m.pyid = k + j) → l[i]? = some n →
      listIndexById l n.pyid = some i := by
  induction l with
  | nil => intro k i n _ h; simp at h
  | cons a tl ih =>
    intro k i n hall h
    have ha : a.pyid = k := by
      have := hall 0 a (by rw [List.getElem?_cons_zero])
      omega
    cases i with
    | zero =>
      rw [List.getElem?_cons_zero] at h
      injection h with h
      subst h
      simp [listIndexById, ha]
    | succ i' =>
      rw [List.getElem?_cons_succ] at h
      have hn : n.pyid = k + (i' + 1) := by
        have := hall (i' + 1) n (by rw [List.getElem?_cons_succ]; exact h)
        omega
      have hne : ¬ a.pyid = n.pyid := by omega
      rw [listIndexById, if_neg hne,
        ih (k + 1) i' n
          (fun j m hm => by
            have := hall (j + 1) m (by rw [List.getElem?_cons_succ]; exact hm)
            omega)
          h]
      rfl

/-- `list.index` on a parsed chain finds exactly the position of the node. -/
theorem parse_listIndexById (s : String) (i : Nat) (n : ReferenceNode)
    (h : (ReferenceChain.parse s).nodes[i]? = some n) :
    listIndexById (ReferenceChain.parse s).nodes n.pyid = some i :=
  listIndexById_pos (ReferenceChain.parse s).nodes 0 i n
    (fun j m hm => by have := parse_pyid s j m hm; omega) h

/-- `get_parent` on a parsed chain: the preceding node by position. -/
theorem get_parent_parse (s : String) (i : Nat) (n : ReferenceNode)
    (h : (ReferenceChain.parse s).nodes[i]? = some n) :
    (ReferenceChain.parse s).get_parent n =
      if 0 < i then (ReferenceChain.parse s).nodes[i - 1]? else none := by
  rw [ReferenceChain.get_parent, parse_listIndexById s i n h]

/-- `get_children` on a parsed chain: everything after the position. -/
theorem get_children_parse (s : String) (i : Nat) (n : ReferenceNode)
    (h : (ReferenceChain.parse s).nodes[i]? = some n) :
    (ReferenceChain.parse s).get_children n =
      (ReferenceChain.parse s).nodes.drop (i + 1) := by
  rw [ReferenceChain.get_children, parse_listIndexById s i n h]

/-- When no part matches the node pattern, the parsing loop produces no
nodes, whatever the pending field and counter are. -/
theorem parseLoop_all_none (parts : List (List Char)) :
    ∀ (f : Option String) (k : Nat),
      (∀ p ∈ parts, matchNodeSegment p = none) → parseLoop parts f k = [] := by
  induction parts with
  | nil => intro f k _; rfl
  | cons part rest ih =>
    intro f k hall
    have hp : matchNodeSegment part = none := hall part (List.mem_cons_self part rest)
    have hrest : ∀ p ∈ rest, matchNodeSegment p = none :=
      fun p hpmem => hall p (List.mem_cons_of_mem part hpmem)
    simp only [parseLoop, hp]
    split
    · exact ih _ k hrest
    · exact ih f k hrest

/-- If every part before the first node part is empty or starts with
`__cppinst` and no field is pending, the first node produced by the loop
(if any) carries no field. -/
theorem parseLoop_head_field (parts : List (List Char)) :
    ∀ (k : Nat),
      (∀ p ∈ parts.takeWhile (fun q => (matchNodeSegment q).isNone),
        p = [] ∨ startsWithCppinst p = true) →
      ((parseLoop parts none k).map ReferenceNode.field).headD none = none := by
  induction parts with
  | nil => intro k _; rfl
  | cons part rest ih =>
    intro k hall
    cases hm : matchNodeSegment part with
    | some v =>
      obtain ⟨cls, addr, rel⟩ := v
      simp only [parseLoop, hm]
      rfl
    | none =>
      have hpart : part = [] ∨ startsWithCppinst part = true := by
        apply hall part
        rw [List.takeWhile_cons]
        simp [hm]
      have hrest : ∀ p ∈ rest.takeWhile (fun q => (matchNodeSegment q).isNone),
          p = [] ∨ startsWithCppinst p = true := by
        intro p hp
        apply hall p
        rw [List.takeWhile_cons]
        simp only [hm, Option.isNone_none, if_true]
        exact List.mem_cons_of_mem part hp
      simp only [parseLoop, hm]
      split
      · rename_i hcond
        rcases hpart with hemp | hcpp
        · exact absurd hemp hcond.1
        · rw [hcond.2] at hcpp
          exact absurd hcpp (by simp)
      · exact ih k hrest

/-- Membership in the inner fold of `parse_multiple_chains` that inserts the
class names of a list of nodes into an accumulating set. -/
theorem mem_foldl_insert_classes (l : List ReferenceNode) :
    ∀ (acc : Finset String) (x : String),
      x ∈ l.foldl (fun a nd => insert nd.class_name a) acc ↔
        x ∈ acc ∨ ∃ nd ∈ l, nd.class_name = x := by
  induction l with
  | nil => intro acc x; simp
  | cons nd tl ih =>
    intro acc x
    rw [List.foldl_cons, ih]
    simp only [Finset.mem_insert, List.mem_cons]
    constructor
    · rintro (⟨hx | hx⟩ | ⟨m, hm, hx⟩)
      · exact Or.inr ⟨nd, Or.inl rfl, hx.symm⟩
      · exact Or.inl hx
      · exact Or.inr ⟨m, Or.inr hm, hx⟩
    · rintro (hx | ⟨m, hm | hm, hx⟩)
      · exact Or.inl (Or.inr hx)
      · exact Or.inl (Or.inl (by rw [hm] at hx; exact hx.symm))
      · exact Or.inr ⟨m, hm, hx⟩

/-- Membership in the outer fold of `parse_multiple_chains` that collects
leaked class names across a list of chains. -/
theorem mem_foldl_collect (chains : List ReferenceChain) :
    ∀ (acc : Finset String) (x : String),
      x ∈ chains.foldl
            (fun acc ch => ch.get_leak_nodes.foldl (fun a nd => insert nd.class_name a) acc)
            acc ↔
        x ∈ acc ∨ ∃ ch ∈ chains, ∃ nd ∈ ch.get_leak_nodes, nd.class_name = x := by
  induction chains with
  | nil => intro acc x; simp
  | cons ch tl ih =>
    intro acc x
    rw [List.foldl_cons, ih, mem_foldl_insert_classes]
    simp only [List.mem_cons]
    constructor
    · rintro (⟨hx | ⟨nd, hnd, hx⟩⟩ | ⟨c, hc, nd, hnd, hx⟩)
      · exact Or.inl hx
      · exact Or.inr ⟨ch, Or.inl rfl, nd, hnd, hx⟩
      · exact Or.inr ⟨c, Or.inr hc, nd, hnd, hx⟩
    · rintro (hx | ⟨c, hc | hc, nd, hnd, hx⟩)
      · exact Or.inl (Or.inl hx)
      · exact Or.inl (Or.inr ⟨nd, by rw [← hc]; exact hnd, hx⟩)
      · exact Or.inr ⟨c, hc, nd, hnd, hx⟩

/-- C3: in a parsed chain, `get_parent` resolves by position (object
identity), returning the node at position `i - 1` for the node at position
`i > 0` and `none` for the node at position 0 — even when distinct positions
hold identical `class_name` and `address`, since the lookup never compares
node content. -/
theorem C3_get_parent_by_position (s : String) (i : Nat) (n : ReferenceNode)
    (h : (ReferenceChain.parse s).nodes[i]? = some n) :
    ((ReferenceChain.parse s).get_parent n =
      if 0 < i then (ReferenceChain.parse s).nodes[i - 1]? else none)
    ∧ (i = 0 → (ReferenceChain.parse s).get_parent n = none)
    ∧ (0 < i → ∃ p, (ReferenceChain.parse s).nodes[i - 1]? = some p ∧
        (ReferenceChain.parse s).get_parent n = some p) := by
  have hmain := get_parent_parse s i n h
  refine ⟨hmain, ?_, ?_⟩
  · intro hz
    subst hz
    simpa using hmain
  · intro hpos
    have hlt : i < (ReferenceChain.parse s).nodes.length :=
      (List.getElem?_eq_some.mp h).1
    have hlt1 : i - 1 < (ReferenceChain.parse s).nodes.length := by omega
    refine ⟨(ReferenceChain.parse s).nodes[i - 1], List.getElem?_eq_getElem hlt1, ?_⟩
    rw [hmain, if_pos hpos, List.getElem?_eq_getElem hlt1]

/-- C3 witness: on a chain whose two nodes share `class_name` and `address`,
the parent of the node at position 1 is the node at position 0. -/
theorem C3_get_parent_by_position_witness :
    ((ReferenceChain.parse "A:01[true]._f.A:01[false]").nodes[1]? =
      some { class_name := "A", address := "01", released := false,
             field := some "_f", pyid := 1 })
    ∧ (ReferenceChain.parse "A:01[true]._f.A:01[false]").get_parent
        { class_name := "A", address := "01", released := false,
          field := some "_f", pyid := 1 } =
        (if 0 < 1 then (ReferenceChain.parse "A:01[true]._f.A:01[false]").nodes[1 - 1]? else none) :=
  ⟨by decide,
   (C3_get_parent_by_position "A:01[true]._f.A:01[false]" 1
     { class_name := "A", address := "01", released := false,
       field := some "_f", pyid := 1 } (by decide)).1⟩

/-- C7: in a parsed chain, the children of the node at position `i` are
exactly the nodes strictly after position `i` in original order, so their
count is `length - i - 1`. -/
theorem C7_children_are_suffix (s : String) (i : Nat) (n : ReferenceNode)
    (h : (ReferenceChain.parse s).nodes[i]? = some n) :
    (ReferenceChain.parse s).get_children n =
      (ReferenceChain.parse s).nodes.drop (i + 1)
    ∧ ((ReferenceChain.parse s).get_children n).length =
        (ReferenceChain.parse s).nodes.length - i - 1 := by
  have hmain := get_children_parse s i n h
  refine ⟨hmain, ?_⟩
  rw [hmain, List.length_drop]
  omega

/-- C7 witness: in a three-node chain, the node at position 0 has the two
later nodes as children. -/
theorem C7_children_are_suffix_witness :
    ((ReferenceChain.parse "A:01[true]._f.B:02[false]._g.C:03[true]").nodes[0]? =
      some { class_name := "A", address := "01", released := true,
             field := none, pyid := 0 })
    ∧ ((ReferenceChain.parse "A:01[true]._f.B:02[false]._g.C:03[true]").get_children
        { class_name := "A", address := "01", released := true,
          field := none, pyid := 0 }).length =
        (ReferenceChain.parse "A:01[true]._f.B:02[false]._g.C:03[true]").nodes.length - 0 - 1 :=
  ⟨by decide,
   (C7_children_are_suffix "A:01[true]._f.B:02[false]._g.C:03[true]" 0
     { class_name := "A", address := "01", released := true,
       field := none, pyid := 0 } (by decide)).2⟩

/-- C4: `get_leak_nodes` is the order-preserving filter of the node list
keeping `released = false` (a sublist of the nodes, in order), and
`get_first_leak` is its first element — `none` when every node was
released. -/
theorem C4_leak_nodes_filter (s : String) :
    (ReferenceChain.get_leak_nodes (ReferenceChain.parse s) =
      (ReferenceChain.parse s).nodes.filter (fun nd => nd.released == false))
    ∧ List.Sublist (ReferenceChain.get_leak_nodes (ReferenceChain.parse s))
        (ReferenceChain.parse s).nodes
    ∧ (ReferenceChain.get_first_leak (ReferenceChain.parse s) =
        (ReferenceChain.get_leak_nodes (ReferenceChain.parse s)).head?)
    ∧ ((∀ nd ∈ (ReferenceChain.parse s).nodes, nd.released = true) →
        ReferenceChain.get_first_leak (ReferenceChain.parse s) = none) := by
  refine ⟨?_, ?_, rfl, ?_⟩
  · exact List.filter_congr (fun nd _ => by cases nd.released <;> rfl)
  · exact List.filter_sublist _
  · intro hall
    have : ReferenceChain.get_leak_nodes (ReferenceChain.parse s) = [] := by
      rw [ReferenceChain.get_leak_nodes, List.filter_eq_nil_iff]
      intro nd hnd
      rw [hall nd hnd]
      simp
    rw [ReferenceChain.get_first_leak, this]
    rfl

/-- C4 witness: on an all-released chain, the first leak is `none`. -/
theorem C4_leak_nodes_filter_witness :
    ReferenceChain.get_first_leak (ReferenceChain.parse "A:01[true]") = none :=
  (C4_leak_nodes_filter "A:01[true]").2.2.2 (by decide)

/-- C6: the parser accepts every input (the embedding of `parse` and
`analyze` is a total function — no branch of the source raises on a parsed
chain), and an input none of whose parts matches the node pattern yields an
empty node list and an analysis with both counts at zero. -/
theorem C6_graceful_degradation (s : String)
    (h : ∀ p ∈ chainParts s, matchNodeSegment p = none) :
    (ReferenceChain.parse s).nodes = []
    ∧ (ReferenceChain.analyze (ReferenceChain.parse s)).total_nodes = 0
    ∧ (ReferenceChain.analyze (ReferenceChain.parse s)).leaked_nodes = 0 := by
  have hnodes : (ReferenceChain.parse s).nodes = [] :=
    parseLoop_all_none (chainParts s) none 0 h
  refine ⟨hnodes, ?_, ?_⟩
  · simp [ReferenceChain.analyze, hnodes]
  · simp [ReferenceChain.analyze, ReferenceChain.get_leak_nodes, hnodes]

/-- C6 witness: `"justsomefield"` has no node segment; its parse is empty
and both analysis counts are zero. -/
theorem C6_graceful_degradation_witness :
    (ReferenceChain.parse "justsomefield").nodes = []
    ∧ (ReferenceChain.analyze (ReferenceChain.parse "justsomefield")).total_nodes = 0
    ∧ (ReferenceChain.analyze (ReferenceChain.parse "justsomefield")).leaked_nodes = 0 :=
  C6_graceful_degradation "justsomefield" (by decide)

/-- C9: the command exits with a non-zero status exactly when it received no
chain-string argument (fewer than two `argv` entries, the program name
included), in which case it prints the usage lines — with an example — to
standard output; with at least one chain string the exit status is 0. -/
theorem C9_usage_exit (argv : List String) :
    ((mainEntry argv).2 ≠ 0 ↔ argv.length < 2)
    ∧ (argv.length < 2 →
        (mainEntry argv).1 = MainOutput.usage usageLines ∧ (mainEntry argv).2 = 1) := by
  constructor
  · rw [mainEntry]
    split
    · rename_i hlt
      simpa using hlt
    · rename_i hge
      dsimp only
      split <;> simpa using hge
  · intro hlt
    rw [mainEntry, if_pos hlt]
    exact ⟨rfl, rfl⟩

/-- C9 witness: invoked with the program name alone, the command prints the
usage lines and exits with status 1. -/
theorem C9_usage_exit_witness :
    (["parse_chain.py"] : List String).length < 2
    ∧ (mainEntry ["parse_chain.py"]).1 = MainOutput.usage usageLines
    ∧ (mainEntry ["parse_chain.py"]).2 = 1 :=
  ⟨by decide, (C9_usage_exit ["parse_chain.py"]).2 (by decide)⟩

/-- C10: any part that fails the node pattern but starts with the characters
`__cppinst` — not only the exact marker — is dropped by the parsing loop,
leaving the pending field name unchanged; concretely, in
`"A:01[true]._f.__cppinst_extra.B:02[false]"` the segment
`__cppinst_extra` never becomes a field, and the pending `"_f"` still
reaches node `B`. -/
theorem C10_cppinst_prefix_dropped :
    (∀ (part : List Char) (rest : List (List Char)) (f : Option String) (k : Nat),
      matchNodeSegment part = none → startsWithCppinst part = true →
      parseLoop (part :: rest) f k = parseLoop rest f k)
    ∧ ((ReferenceChain.parse "A:01[true]._f.__cppinst_extra.B:02[false]").nodes.map
        ReferenceNode.field) = [none, some "_f"] := by
  constructor
  · intro part rest f k h1 h2
    simp only [parseLoop, h1]
    rw [if_neg]
    rintro ⟨-, hf⟩
    rw [h2] at hf
    exact Bool.noConfusion hf
  · decide

/-- C10 witness: the loop drops the concrete part `__cppinst_extra` without
touching the pending field `"_f"`. -/
theorem C10_cppinst_prefix_dropped_witness :
    parseLoop ["__cppinst_extra".toList, "B:02[false]".toList] (some "_f") 1 =
      parseLoop ["B:02[false]".toList] (some "_f") 1 :=
  C10_cppinst_prefix_dropped.1 "__cppinst_extra".toList ["B:02[false]".toList]
    (some "_f") 1 (by decide) (by decide)

/-- C1: every leaked node of a parsed chain gets a report entry, and the
entry's priority is `"high"` exactly when the node has a parent (it is not
at position 0) whose `released` flag is true; in every other case —
including the root — it is `"medium"`. -/
theorem C1_priority_classification (s : String) (i : Nat) (n : ReferenceNode)
    (h : (ReferenceChain.parse s).nodes[i]? = some n) (hrel : n.released = false) :
    mkLeakInfo (ReferenceChain.parse s) n ∈
      (ReferenceChain.analyze (ReferenceChain.parse s)).leaks
    ∧ (mkLeakInfo (ReferenceChain.parse s) n).priority =
        (match (ReferenceChain.parse s).nodes[i - 1]? with
         | some p => if 0 < i ∧ p.released = true then "high" else "medium"
         | none => "medium") := by
  obtain ⟨hlt, hget⟩ := List.getElem?_eq_some.mp h
  constructor
  · have hmem : n ∈ (ReferenceChain.parse s).nodes := hget ▸ List.getElem_mem hlt
    have hleak : n ∈ ReferenceChain.get_leak_nodes (ReferenceChain.parse s) :=
      List.mem_filter.mpr ⟨hmem, by simp [hrel]⟩
    exact List.mem_map_of_mem _ hleak
  · have hpar := get_parent_parse s i n h
    simp only [mkLeakInfo]
    rw [hpar]
    rcases Nat.eq_zero_or_pos i with hi | hi
    · subst hi
      simp [h]
    · have hlt1 : i - 1 < (ReferenceChain.parse s).nodes.length := by omega
      rw [if_pos hi, List.getElem?_eq_getElem hlt1]
      simp [hi]

/-- C1 witness: in the round-trip scenario the leaked node `B` at position 1
has a released parent, so its entry is present with priority `"high"`. -/
theorem C1_priority_classification_witness :
    mkLeakInfo (ReferenceChain.parse "A:01[true]._f.B:02[false]")
      { class_name := "B", address := "02", released := false,
        field := some "_f", pyid := 1 } ∈
      (ReferenceChain.analyze (ReferenceChain.parse "A:01[true]._f.B:02[false]")).leaks
    ∧ (mkLeakInfo (ReferenceChain.parse "A:01[true]._f.B:02[false]")
        { class_name := "B", address := "02", released := false,
          field := some "_f", pyid := 1 }).priority =
        (match (ReferenceChain.parse "A:01[true]._f.B:02[false]").nodes[1 - 1]? with
         | some p => if 0 < 1 ∧ p.released = true then "high" else "medium"
         | none => "medium") :=
  C1_priority_classification "A:01[true]._f.B:02[false]" 1
    { class_name := "B", address := "02", released := false,
      field := some "_f", pyid := 1 } (by decide) (by decide)

/-- C5: the trailing `.__cppinst = Identifier` suffix is stripped before
splitting and stored as the chain's annotation, and a leaked node's report
entry carries it exactly when the node is the last of the list; on
`chainC5` this gives two nodes, annotation `"Widget_C"`, and the single
leak entry (node `B`, position 1 = last) carrying `"Widget_C"`. -/
theorem C5_trailing_annotation :
    (∀ (s : String) (i : Nat) (n : ReferenceNode),
      (ReferenceChain.parse s).nodes[i]? = some n → n.released = false →
      (mkLeakInfo (ReferenceChain.parse s) n).cpp_blueprint =
        (if i + 1 = (ReferenceChain.parse s).nodes.length
         then (ReferenceChain.parse s).cpp_instance else none))
    ∧ (ReferenceChain.parse chainC5).cpp_instance = some "Widget_C"
    ∧ ((ReferenceChain.parse chainC5).nodes.map
        (fun n => (n.class_name, n.address, n.released, n.field))) =
        [("A", "01", true, none), ("B", "02", false, some "_f")]
    ∧ ((ReferenceChain.analyze (ReferenceChain.parse chainC5)).leaks.map
        (fun li => li.cpp_blueprint)) = [some "Widget_C"] := by
  refine ⟨?_, by decide, by decide, by decide⟩
  intro s i n h _
  obtain ⟨hlt, -⟩ := List.getElem?_eq_some.mp h
  have hpy : n.pyid = i := parse_pyid s i n h
  have hlt2 : (ReferenceChain.parse s).nodes.length - 1 <
      (ReferenceChain.parse s).nodes.length := by omega
  have hlast2 := List.getElem?_eq_getElem hlt2
  have hpy2 := parse_pyid s ((ReferenceChain.parse s).nodes.length - 1) _ hlast2
  simp only [mkLeakInfo]
  rw [List.getLast?_eq_getElem?, hlast2]
  simp only [hpy, hpy2]
  exact if_congr (by omega) rfl rfl

/-- C5 witness: the leak entry of the last node of `chainC5` carries the
trailing annotation. -/
theorem C5_trailing_annotation_witness :
    (mkLeakInfo (ReferenceChain.parse chainC5)
      { class_name := "B", address := "02", released := false,
        field := some "_f", pyid := 1 }).cpp_blueprint =
      (if 1 + 1 = (ReferenceChain.parse chainC5).nodes.length
       then (ReferenceChain.parse chainC5).cpp_instance else none) :=
  C5_trailing_annotation.1 chainC5 1
    { class_name := "B", address := "02", released := false,
      field := some "_f", pyid := 1 } (by decide) (by decide)

/-- C2 counterexample: it is not true that the node at position 0 has
`field = none` for every input — on `"f.A:01[true]"` the leading field
segment `f` is pending when the first node is built, so node 0 carries
`field = "f"`. -/
theorem C2_counterexample :
    ¬ (∀ (s : String) (n : ReferenceNode),
        (ReferenceChain.parse s).nodes[0]? = some n → n.field = none) := by
  intro hall
  have hc := hall "f.A:01[true]"
    { class_name := "A", address := "01", released := true,
      field := some "f", pyid := 0 } (by decide)
  exact Option.noConfusion hc

/-- C2 (amended): when every segment preceding the first node segment is
empty or begins with `__cppinst` — in particular when the input starts with
a node segment — the node at position 0 has `field = none`. -/
theorem C2_first_node_field_none (s : String)
    (h : ∀ p ∈ (chainParts s).takeWhile (fun q => (matchNodeSegment q).isNone),
      p = [] ∨ startsWithCppinst p = true) :
    (((ReferenceChain.parse s).nodes.map ReferenceNode.field).headD none) = none :=
  parseLoop_head_field (chainParts s) 0 h

/-- C2 witness: on the round-trip input, which starts with a node segment,
the first node carries no field. -/
theorem C2_first_node_field_none_witness :
    (((ReferenceChain.parse "A:01[true]._f.B:02[false]").nodes.map
        ReferenceNode.field).headD none) = none :=
  C2_first_node_field_none "A:01[true]._f.B:02[false]" (by decide)

/-- C8: `parse_multiple_chains` reports the chain count and the set of class
names leaked anywhere across the chains, duplicates collapsed; on the
two-chain scenario (one leaking `X`, the other `X` and `Y`) the set is
exactly `{X, Y}`. -/
theorem C8_aggregation :
    (∀ (chain_strings : List String),
      (parse_multiple_chains chain_strings).total_chains = chain_strings.length
      ∧ ∀ x : String,
          x ∈ (parse_multiple_chains chain_strings).unique_leaked_classes ↔
            ∃ cs ∈ chain_strings,
              ∃ nd ∈ ReferenceChain.get_leak_nodes (ReferenceChain.parse cs),
                nd.class_name = x)
    ∧ (parse_multiple_chains
        ["X:01[false]", "X:02[false]._f.Y:03[false]"]).unique_leaked_classes
        = {"X", "Y"} := by
  constructor
  · intro chain_strings
    constructor
    · simp [parse_multiple_chains]
    · intro x
      rw [show (parse_multiple_chains chain_strings).unique_leaked_classes =
            (chain_strings.map ReferenceChain.parse).foldl
              (fun acc ch => ch.get_leak_nodes.foldl
                (fun a nd => insert nd.class_name a) acc) ∅ from rfl,
        mem_foldl_collect]
      simp only [Finset.not_mem_empty, false_or, List.mem_map]
      constructor
      · rintro ⟨ch, ⟨cs, hcs, rfl⟩, nd, hnd, hx⟩
        exact ⟨cs, hcs, nd, hnd, hx⟩
      · rintro ⟨cs, hcs, nd, hnd, hx⟩
        exact ⟨ReferenceChain.parse cs, ⟨cs, hcs, rfl⟩, nd, hnd, hx⟩
  · decide
